import Mathlib

/-!
# go-sectorbuilder, files.go

A shallow embedding of `src/files.go`: the cache trimmer `TrimCache`, the commit
readiness check `CanCommit` and the stream-to-file adapter `toReadableFile`,
followed by the properties proved about them.

Conventions of the embedding.

* A Go string is a sequence of bytes; a byte is a natural number below 256.
* A Go `error` result is `Option GoError`, `none` being `nil`.
* The filesystem collaborator (`sb.filesystem`, package `fs`) and the operating
  system are not part of `files.go`; what they answer is a parameter
  (`Filesystem`, `OS`, `PipeEnv`), what they are asked is recorded in a trace.
-/

namespace Sectorbuilder

/-! ## Go values -/

/-- A Go string: an immutable sequence of bytes. -/
abbrev GoString := List Nat

/-- The bytes (UTF-8) of a string constant of the source. -/
def str (s : String) : GoString :=
  (s.data.flatMap String.utf8EncodeChar).map UInt8.toNat

/-- Go's `strings.HasSuffix`:
`len(s) >= len(suffix) && s[len(s)-len(suffix):] == suffix`. -/
def HasSuffix (s suffix : GoString) : Bool :=
  decide (s.length ≥ suffix.length) && (s.drop (s.length - suffix.length) == suffix)

/-- The verb `%d` of the format functions, for an `int64`. -/
def fmtInt (i : Int) : GoString := str (toString i)

/-- Go error values, as far as `files.go` makes or forwards them. -/
inductive GoError where
  /-- An error made outside `files.go` (collaborator, operating system), with its message. -/
  | external (text : GoString)
  /-- The sentinel `io.EOF`. -/
  | EOF
  /-- The value of `xerrors.Errorf("<msg>: %w", cause)`. -/
  | wrap (msg : GoString) (cause : GoError)
  /-- The value of `xerrors.Errorf` with a format that wraps nothing. -/
  | msg (text : GoString)
  deriving DecidableEq, Repr

/-- The method `Error()`: the message of an error value. -/
def GoError.Error : GoError → GoString
  | .external text => text
  | .EOF => str "EOF"
  | .wrap m cause => m ++ str ": " ++ cause.Error
  | .msg text => text

/-! ## The collaborators of `files.go` -/

/-- Modelled from the spec: the type `fs.DataType`, declared in package `fs`, is a
closed enumeration of artifact kinds (cache, sealed, unsealed, staging). -/
inductive DataType where
  | DataCache
  | DataStaging
  | DataSealed
  | DataUnsealed
  deriving DecidableEq, Repr

/-- A `context.Context`, as far as a collaborator can see it. -/
structure Context where
  cancelled : Bool
  deriving DecidableEq, Repr

/-- What the filesystem collaborator `sb.filesystem` answers. `FindSector` takes the
data type, the miner and the sector id and gives a path or an error; `Lock` takes
the context and a path and gives `nil` or an error. -/
structure Filesystem where
  FindSector : DataType → Nat → Nat → Except GoError GoString
  Lock : Context → GoString → Option GoError

/-- What the operating system answers: the error with which `ioutil.ReadDir` of a
directory fails, and the error with which `os.Remove` refuses to remove an
existing entry of a directory. -/
structure OS where
  ReadDirErr : GoString → Option GoError
  RemoveErr : GoString → GoString → Option GoError

/-- The fields of `SectorBuilder` that `files.go` reads. -/
structure SectorBuilder where
  Miner : Nat
  ssize : Nat
  filesystem : Filesystem

/-- A call that leaves `files.go`. -/
inductive Event where
  | FindSector (typ : DataType) (miner sectorID : Nat)
  | Lock (dir : GoString)
  | Unlock (dir : GoString)
  | ReadDir (dir : GoString)
  | Remove (dir name : GoString)
  deriving DecidableEq, Repr

/-- The state outside the program: for every directory path the names of its
entries, in the order in which `ioutil.ReadDir` reports them (sorted by name), and
the calls made so far. -/
structure World where
  disk : GoString → List GoString
  trace : List Event

/-- The error of `os.Remove` for a path that does not exist. -/
def ENOENT : GoError := .external (str "no such file or directory")

/-- The call `sb.filesystem.FindSector(typ, miner, sectorID)`. -/
def FindSector (fsys : Filesystem) (typ : DataType) (miner sectorID : Nat) (w : World) :
    Except GoError GoString × World :=
  (fsys.FindSector typ miner sectorID,
    { w with trace := w.trace ++ [Event.FindSector typ miner sectorID] })

/-- The call `sb.filesystem.Lock(ctx, dir)`. -/
def Lock (fsys : Filesystem) (ctx : Context) (dir : GoString) (w : World) :
    Option GoError × World :=
  (fsys.Lock ctx dir, { w with trace := w.trace ++ [Event.Lock dir] })

/-- The call `sb.filesystem.Unlock(dir)`. -/
def Unlock (dir : GoString) (w : World) : World :=
  { w with trace := w.trace ++ [Event.Unlock dir] }

/-- The call `ioutil.ReadDir(string(dir))`: the entries of the directory, or an error. -/
def ReadDir (os : OS) (dir : GoString) (w : World) :
    Except GoError (List GoString) × World :=
  let w1 : World := { w with trace := w.trace ++ [Event.ReadDir dir] }
  match os.ReadDirErr dir with
  | some err => (.error err, w1)
  | none => (.ok (w.disk dir), w1)

/-- The call `os.Remove(filepath.Join(string(dir), name))` for an entry name
`name`: the entry `name` of directory `dir` is removed, unless it does not exist
or the operating system refuses; a refused removal changes nothing. -/
def Remove (os : OS) (dir name : GoString) (w : World) : Option GoError × World :=
  let w1 : World := { w with trace := w.trace ++ [Event.Remove dir name] }
  if name ∈ w.disk dir then
    match os.RemoveErr dir name with
    | some err => (some err, w1)
    | none => (none, { w1 with disk := Function.update w.disk dir ((w.disk dir).erase name) })
  else (some ENOENT, w1)

/-! ## `TrimCache` -/

/-- The loop `for _, file := range files` of `TrimCache`, from the entry it has
reached; `some err` is the `return` inside the loop. -/
def TrimCache.loop (os : OS) (dir : GoString) : List GoString → World → Option GoError × World
  | [], w => (none, w)
  | file :: rest, w =>
    if !HasSuffix file (str ".dat") then
      TrimCache.loop os dir rest w
    else if HasSuffix file (str "-data-tree-r-last.dat") then
      TrimCache.loop os dir rest w
    else
      match Remove os dir file w with
      | (some err, w1) => (some (.wrap (str "rm " ++ file) err), w1)
      | (none, w1) => TrimCache.loop os dir rest w1

/-- The statements of `TrimCache` after `defer sb.filesystem.Unlock(dir)`. -/
def TrimCache.body (os : OS) (dir : GoString) (w : World) : Option GoError × World :=
  match ReadDir os dir w with
  | (.error err, w1) => (some (.wrap (str "readdir") err), w1)
  | (.ok files, w1) => TrimCache.loop os dir files w1

/-- The method `(*SectorBuilder).TrimCache(ctx, sectorID)`; the deferred `Unlock`
runs after the body, whatever the body returns. -/
def TrimCache (sb : SectorBuilder) (os : OS) (ctx : Context) (sectorID : Nat) (w : World) :
    Option GoError × World :=
  match FindSector sb.filesystem .DataCache sb.Miner sectorID w with
  | (.error err, w1) => (some (.wrap (str "getting cache dir") err), w1)
  | (.ok dir, w1) =>
    match Lock sb.filesystem ctx dir w1 with
    | (some err, w2) => (some (.wrap (str "acquiring sector lock") err), w2)
    | (none, w2) =>
      let r := TrimCache.body os dir w2
      (r.1, Unlock dir r.2)

/-! ## `CanCommit` -/

/-- The method `(*SectorBuilder).SectorPath(typ, sectorID)`. -/
def SectorPath (sb : SectorBuilder) (typ : DataType) (sectorID : Nat) (w : World) :
    Except GoError GoString × World :=
  FindSector sb.filesystem typ sb.Miner sectorID w

/-- The method `(*SectorBuilder).CanCommit(sectorID)`. -/
def CanCommit (sb : SectorBuilder) (os : OS) (sectorID : Nat) (w : World) :
    (Bool × Option GoError) × World :=
  match SectorPath sb .DataCache sectorID w with
  | (.error err, w1) => ((false, some (.wrap (str "getting cache dir") err)), w1)
  | (.ok dir, w1) =>
    match ReadDir os dir w1 with
    | (.error err, w2) => ((false, some err), w2)
    | (.ok ents, w2) => ((decide (ents.length = 10), none), w2)

/-! ## `toReadableFile`

The slow path runs two threads: the caller and the background task of the `go`
statement. They share the mutex `wait` and the variable `werr`, and the caller
reads `werr` only after `wait.Lock()`, which succeeds only after the deferred
`wait.Unlock()` of the background task. The background task is therefore taken
as one step (`runPending`), which takes it as far as it ever gets: to its end,
or into a write to the pipe that never returns.

What can not return is spelled out. A write to the pipe blocks while the buffer
of the pipe is full and the read end is open and unread: with a consumer that
reads `d` bytes in all and a buffer of `Capacity` bytes, a copy that has more
than `d + Capacity` bytes to write never ends (`Copy` gives `none` for what it
returns). A `Lock` of a held mutex does not return: an attempt to call the
completion function gives `none` in a state where the mutex is held
(`Completion.call`), and a call returns only if the attempt succeeds at once or
after the background task has run (`Completion.run`).
-/

/-- A source that is not a file: the bytes its `Read` yields, in order, and how it
ends after them, with `io.EOF` (`none`) or with a read error. -/
structure Stream where
  data : List Nat
  fail : Option GoError
  deriving DecidableEq, Repr

/-- The argument `r io.Reader`: a `*os.File`, named by its descriptor, or any
other reader. The type assertion `r.(*os.File)` tells the two apart. -/
inductive Reader where
  | file (fd : Nat)
  | stream (s : Stream)
  deriving DecidableEq, Repr

/-- A `*os.File` result: a handle the caller passed in, or the read end of the
pipe with the given number. -/
inductive File where
  | handle (fd : Nat)
  | pipeRead (id : Nat)
  deriving DecidableEq, Repr

/-- What the surroundings of the pipe do: the error of `os.Pipe()`; the number of
bytes the write end takes before a `Write` fails and the error of that `Write`
(`none`: no write fails); the error of `w.Close()`; the size of the buffer of the
pipe; and the number of bytes the consumer reads from the read end in all while
the copy runs (`none`: every byte that is written). -/
structure PipeEnv where
  PipeErr : Option GoError
  WriteErr : Option (Nat × GoError)
  CloseErr : Option GoError
  Capacity : Nat
  Drain : Option Nat
  deriving DecidableEq, Repr

/-- The write end takes `m` bytes without a write error. -/
def PipeEnv.accepts (env : PipeEnv) (m : Nat) : Bool :=
  match env.WriteErr with
  | none => true
  | some (k, _) => decide (m ≤ k)

/-- Of `m` bytes to write, the number written when a write fails, and `m` when none
does. -/
def PipeEnv.stop (env : PipeEnv) (m : Nat) : Nat :=
  match env.WriteErr with
  | none => m
  | some (k, _) => min k m

/-- Writing `m` bytes to the pipe never ends: the consumer reads `d` bytes, the
buffer holds `Capacity` more, and the write of the next byte blocks for ever. -/
def PipeEnv.stalls (env : PipeEnv) (m : Nat) : Bool :=
  match env.Drain with
  | none => false
  | some d => decide (d + env.Capacity < m)

/-- A line written with `log.Warnf`. -/
inductive LogEntry where
  | copyError (err : GoError)
  | closeError (err : GoError)
  | mismatch (copied n : Int)
  deriving DecidableEq, Repr

/-- The variables one slow-path call of `toReadableFile` shares with its
background task, and counters of what has been created. `wait` is the mutex:
`true` when held. `pipe` is what has been written to the write end `w`, in order.
`pending` is the started background task that has not run yet, with the reader
and the length it captured. -/
structure Runtime where
  pipes : Nat
  goroutines : Nat
  pending : Option (Stream × Int)
  wait : Bool
  werr : Option GoError
  pipe : List Nat
  closes : Nat
  log : List LogEntry
  deriving DecidableEq, Repr

/-- Go's `io.Copy(dst, src)` when no write blocks for ever; `src` yields `src` and
then ends with `fin` (`none` for `io.EOF`) and `dst` is the write end of the pipe.
The result is the number of bytes written with the error (`io.EOF` is not
reported), and the bytes written. -/
def Copy.flowing (env : PipeEnv) (src : List Nat) (fin : Option GoError) :
    (Int × Option GoError) × List Nat :=
  match env.WriteErr with
  | some (k, e) =>
    if k < src.length then (((k : Int), some e), src.take k)
    else (((src.length : Int), fin), src)
  | none => (((src.length : Int), fin), src)

/-- Go's `io.Copy(dst, src)` into the write end of the pipe: what the call returns,
`none` when it never returns, and the bytes written. The call never returns when
the bytes it has to write before the end of `src` or a failing write are more
than the consumer reads and the buffer holds. -/
def Copy (env : PipeEnv) (src : List Nat) (fin : Option GoError) :
    Option (Int × Option GoError) × List Nat :=
  match env.Drain with
  | some d =>
    if d + env.Capacity < env.stop src.length then (none, src.take (d + env.Capacity))
    else ((some (Copy.flowing env src fin).1), (Copy.flowing env src fin).2)
  | none => ((some (Copy.flowing env src fin).1), (Copy.flowing env src fin).2)

/-- Go's `io.CopyN(dst, src, n)`:
`written, err = Copy(dst, LimitReader(src, n)); if written == n then return n, nil;
if written < n && err == nil then err = EOF; return`.
`LimitReader(src, n)` yields the first `n` bytes of `src` and then `io.EOF`, or all
of `src` and its own end when `src` is shorter. The first component is what the
call returns, `none` when it never returns; the second is what was written to
`dst`. -/
def CopyN (env : PipeEnv) (src : Stream) (n : Int) :
    Option (Int × Option GoError) × List Nat :=
  let limited := src.data.take n.toNat
  let fin := if n.toNat ≤ src.data.length then none else src.fail
  match Copy env limited fin with
  | (none, bytes) => (none, bytes)
  | (some c, bytes) =>
    if c.1 = n then (some (n, none), bytes)
    else if c.1 < n ∧ c.2 = none then (some (c.1, some .EOF), bytes)
    else (some c, bytes)

/-- The copy of `n` bytes from `src` never ends, for the consumer and the buffer of
`env`. -/
def copyStalls (env : PipeEnv) (src : Stream) (n : Int) : Bool :=
  env.stalls (env.stop (min n.toNat src.data.length))

/-- The value of
`xerrors.Errorf("copied different amount than expected: %d != %d", copied, n)`. -/
def mismatchError (copied n : Int) : GoError :=
  .msg (str "copied different amount than expected: " ++ fmtInt copied ++ str " != " ++ fmtInt n)

/-- The body of the `go func() { ... }()` of `toReadableFile`, as far as it gets.
When `io.CopyN` never returns, nothing after it happens: no `Close`, no
assignment to `werr`, no `Unlock`. Otherwise the body runs to its end, the
deferred `wait.Unlock()` being its last step. -/
def toReadableFile.goroutine (env : PipeEnv) (r : Stream) (n : Int) (rt : Runtime) : Runtime :=
  -- copied, werr = io.CopyN(w, r, n)
  match CopyN env r n with
  | (none, bytes) => { rt with pipe := rt.pipe ++ bytes }
  | (some (copied, cerr), bytes) =>
    let rt1 : Runtime := { rt with werr := cerr, pipe := rt.pipe ++ bytes }
    let rt2 : Runtime :=
      match rt1.werr with
      | some e => { rt1 with log := rt1.log ++ [.copyError e] }
      | none => rt1
    -- err := w.Close()
    let err := env.CloseErr
    let rt3 : Runtime := { rt2 with closes := rt2.closes + 1 }
    let rt4 : Runtime :=
      match rt3.werr, err with
      | none, some e => { rt3 with werr := some e, log := rt3.log ++ [.closeError e] }
      | _, _ =>
        if copied ≠ n then
          { rt3 with log := rt3.log ++ [.mismatch copied n], werr := some (mismatchError copied n) }
        else rt3
    -- defer wait.Unlock()
    { rt4 with wait := false }

/-- The two function values `toReadableFile` returns: `func() error { return nil }`
and `func() error { wait.Lock(); return werr }`. -/
inductive Completion where
  | ok
  | await
  deriving DecidableEq, Repr

/-- The three results of `toReadableFile`. -/
structure Adapted where
  f : Option File
  done : Option Completion
  err : Option GoError
  deriving DecidableEq, Repr

/-- The function `toReadableFile(r, n)`. On the slow path the variables `wait` and
`werr` are fresh, `wait.Lock()` takes the free mutex and the `go` statement starts
the background task. -/
def toReadableFile (env : PipeEnv) (r : Reader) (n : Int) (rt : Runtime) : Adapted × Runtime :=
  match r with
  | .file fd => ({ f := some (.handle fd), done := some .ok, err := none }, rt)
  | .stream s =>
    match env.PipeErr with
    | some err => ({ f := none, done := none, err := some err }, rt)
    | none =>
      ({ f := some (.pipeRead rt.pipes), done := some .await, err := none },
        { rt with
          pipes := rt.pipes + 1, pipe := [], closes := 0,
          wait := true, werr := none,
          goroutines := rt.goroutines + 1, pending := some (s, n) })

/-- One attempt to run a completion function in the given state: `none` when it
cannot proceed there, because `wait.Lock()` finds the mutex held. -/
def Completion.call : Completion → Runtime → Option (Option GoError × Runtime)
  | .ok, rt => some (none, rt)
  | .await, rt => if rt.wait then none else some (rt.werr, { rt with wait := true })

/-- The other thread: the background task, if one is started and has not run, runs
as far as it ever gets. -/
def runPending (env : PipeEnv) (rt : Runtime) : Runtime :=
  match rt.pending with
  | none => rt
  | some (s, n) => toReadableFile.goroutine env s n { rt with pending := none }

/-- A call of a completion function by the caller: it returns when it can proceed;
while it cannot, the background task runs; `none` when it can never proceed, which
is so when the mutex is still held after the background task has got as far as it
ever gets. -/
def Completion.run (env : PipeEnv) (c : Completion) (rt : Runtime) :
    Option (Option GoError × Runtime) :=
  match c.call rt with
  | some r => some r
  | none => c.call (runPending env rt)

/-- A runtime in which nothing has happened yet. -/
def Runtime.start : Runtime :=
  { pipes := 0, goroutines := 0, pending := none, wait := false, werr := none,
    pipe := [], closes := 0, log := [] }

/-! ## What the spec calls a prunable file -/

/-- The spec's class of prunable cache files: the name ends in `.dat` and does not
end in `-data-tree-r-last.dat`. -/
def prunable (name : GoString) : Bool :=
  HasSuffix name (str ".dat") && !HasSuffix name (str "-data-tree-r-last.dat")

/-- The events a run has added to the trace. -/
def newEvents (before after : World) : List Event :=
  after.trace.drop before.trace.length

/-! ## Example inputs -/

/-- A cache directory path. -/
def exDir : GoString := str "/cache/s-t01000-7"

/-- A disk whose only populated directory is `exDir`, holding the three files of the
spec's example. -/
def exDisk : GoString → List GoString := fun d =>
  if d = exDir then [str "a.dat", str "b-data-tree-r-last.dat", str "c.txt"] else []

/-- A collaborator that finds every sector at `exDir` and grants every lock. -/
def exFs : Filesystem := { FindSector := fun _ _ _ => .ok exDir, Lock := fun _ _ => none }

/-- An operating system that refuses nothing. -/
def exOS : OS := { ReadDirErr := fun _ => none, RemoveErr := fun _ _ => none }

/-- A sector builder over `exFs`. -/
def exSb : SectorBuilder := { Miner := 1000, ssize := 2048, filesystem := exFs }

/-- The world of the spec's example, before any call. -/
def exWorld : World := { disk := exDisk, trace := [] }

/-- A context that is not cancelled. -/
def exCtx : Context := { cancelled := false }

/-- A collaborator whose sector lock is held by another owner. -/
def exFsBusy : Filesystem :=
  { FindSector := fun _ _ _ => .ok exDir,
    Lock := fun _ _ => some (.external (str "sector lock held")) }

/-- A sector builder over `exFsBusy`. -/
def exSbBusy : SectorBuilder := { Miner := 1000, ssize := 2048, filesystem := exFsBusy }

/-- A collaborator that knows no sector. -/
def exFsMissing : Filesystem :=
  { FindSector := fun _ _ _ => .error (.external (str "sector not found")),
    Lock := fun _ _ => none }

/-- A sector builder over `exFsMissing`. -/
def exSbMissing : SectorBuilder := { Miner := 1000, ssize := 2048, filesystem := exFsMissing }

/-- An operating system that cannot list any directory. -/
def exOSUnreadable : OS :=
  { ReadDirErr := fun _ => some (.external (str "permission denied")),
    RemoveErr := fun _ _ => none }

/-- An operating system that refuses to remove `b.dat` and nothing else. -/
def exOSRefuse : OS :=
  { ReadDirErr := fun _ => none,
    RemoveErr := fun _ name =>
      if name = str "b.dat" then some (.external (str "operation not permitted")) else none }

/-- A world whose directory `exDir` holds three prunable files and one other. -/
def exWorld4 : World :=
  { disk := fun d =>
      if d = exDir then [str "a.dat", str "aux", str "b.dat", str "c.dat"] else [],
    trace := [] }

/-- A world in which every directory holds `k` entries, named by one letter each. -/
def exWorldN (k : Nat) : World :=
  { disk := fun _ => (List.range k).map (fun i => [97 + i]), trace := [] }

/-- A pipe of 64 KiB that can be made, takes every byte and closes without error,
with a consumer that reads all that is written. -/
def exPipe : PipeEnv :=
  { PipeErr := none, WriteErr := none, CloseErr := none, Capacity := 65536, Drain := none }

/-- A pipe whose read end the consumer has closed: the first write fails. -/
def exPipeBroken : PipeEnv :=
  { PipeErr := none, WriteErr := some (0, .external (str "broken pipe")), CloseErr := none,
    Capacity := 65536, Drain := some 0 }

/-- A pipe whose write end cannot be closed without error. -/
def exPipeCloseErr : PipeEnv :=
  { PipeErr := none, WriteErr := none, CloseErr := some (.external (str "bad file descriptor")),
    Capacity := 65536, Drain := none }

/-- A pipe of 64 KiB without errors whose read end stays open and is not read. -/
def exPipeUnread : PipeEnv :=
  { PipeErr := none, WriteErr := none, CloseErr := none, Capacity := 65536, Drain := some 0 }

/-- A stream of 70000 zero bytes. -/
def exStreamBig : Stream := { data := List.replicate 70000 0, fail := none }

/-- A stream of the three bytes 1, 2, 3. -/
def exStream3 : Stream := { data := [1, 2, 3], fail := none }

/-- A stream of the two bytes 1, 2. -/
def exStream2 : Stream := { data := [1, 2], fail := none }

/-! ## Lemmas about the loop of `TrimCache` -/

theorem loop_cons_skip (os : OS) (dir f : GoString) (rest : List GoString) (w : World)
    (h : prunable f = false) :
    TrimCache.loop os dir (f :: rest) w = TrimCache.loop os dir rest w := by
  unfold prunable at h
  rw [TrimCache.loop]
  by_cases h1 : HasSuffix f (str ".dat") = true
  · have h2 : HasSuffix f (str "-data-tree-r-last.dat") = true := by
      rw [h1] at h; simpa using h
    simp [h1, h2]
  · simp [h1]

theorem loop_cons_prunable (os : OS) (dir f : GoString) (rest : List GoString) (w : World)
    (h : prunable f = true) :
    TrimCache.loop os dir (f :: rest) w =
      match Remove os dir f w with
      | (some err, w1) => (some (.wrap (str "rm " ++ f) err), w1)
      | (none, w1) => TrimCache.loop os dir rest w1 := by
  unfold prunable at h
  rw [TrimCache.loop]
  have h1 : HasSuffix f (str ".dat") = true := by
    cases hh : HasSuffix f (str ".dat") <;> simp [hh] at h ⊢
  have h2 : HasSuffix f (str "-data-tree-r-last.dat") = false := by
    cases hh : HasSuffix f (str "-data-tree-r-last.dat") <;> simp [hh] at h ⊢
  simp [h1, h2]

theorem remove_ok (os : OS) (dir f : GoString) (w : World)
    (hin : f ∈ w.disk dir) (hok : os.RemoveErr dir f = none) :
    Remove os dir f w =
      (none, { disk := Function.update w.disk dir ((w.disk dir).erase f),
               trace := w.trace ++ [Event.Remove dir f] }) := by
  simp [Remove, hin, hok]

theorem remove_refused (os : OS) (dir f : GoString) (w : World) (e : GoError)
    (hin : f ∈ w.disk dir) (hno : os.RemoveErr dir f = some e) :
    Remove os dir f w =
      (some e, { disk := w.disk, trace := w.trace ++ [Event.Remove dir f] }) := by
  simp [Remove, hin, hno]

theorem remove_trace (os : OS) (dir f : GoString) (w : World) :
    (Remove os dir f w).2.trace = w.trace ++ [Event.Remove dir f] := by
  unfold Remove
  by_cases hin : f ∈ w.disk dir
  · cases hr : os.RemoveErr dir f <;> simp [hin, hr]
  · simp [hin]

theorem remove_other (os : OS) (dir f d : GoString) (w : World) (hd : d ≠ dir) :
    (Remove os dir f w).2.disk d = w.disk d := by
  unfold Remove
  by_cases hin : f ∈ w.disk dir
  · cases hr : os.RemoveErr dir f <;> simp [hin, hr, Function.update_noteq hd]
  · simp [hin]

/-- The loop adds only `Remove` calls on `dir` to the trace and leaves every other
directory as it is. -/
theorem loop_events (os : OS) (dir : GoString) : ∀ (l : List GoString) (w : World),
    ∃ evs, (TrimCache.loop os dir l w).2.trace = w.trace ++ evs ∧
      (∀ e ∈ evs, ∃ name, e = Event.Remove dir name) ∧
      ∀ d, d ≠ dir → (TrimCache.loop os dir l w).2.disk d = w.disk d := by
  intro l
  induction l with
  | nil => intro w; exact ⟨[], by simp [TrimCache.loop], by simp, fun _ _ => rfl⟩
  | cons f rest ih =>
    intro w
    by_cases hp : prunable f = true
    · rw [loop_cons_prunable os dir f rest w hp]
      have ht := remove_trace os dir f w
      have ho := remove_other os dir f
      rcases hrm : Remove os dir f w with ⟨r, w1⟩
      rw [hrm] at ht
      cases r with
      | some err =>
        refine ⟨[Event.Remove dir f], by simpa using ht, by simp, ?_⟩
        intro d hd
        have := ho d w hd
        rw [hrm] at this
        simpa using this
      | none =>
        obtain ⟨evs, h1, h2, h3⟩ := ih w1
        refine ⟨Event.Remove dir f :: evs, ?_, ?_, ?_⟩
        · simp only at ht ⊢
          rw [h1, ht]; simp
        · intro e he
          rcases List.mem_cons.mp he with rfl | he
          · exact ⟨f, rfl⟩
          · exact h2 e he
        · intro d hd
          have := ho d w hd
          rw [hrm] at this
          simp only at this ⊢
          rw [h3 d hd, this]
    · have hp2 : prunable f = false := by simpa using hp
      rw [loop_cons_skip os dir f rest w hp2]
      exact ih w

/-- A loop that returns `nil` has removed exactly the prunable entries. Here `kept`
is the part of the directory the loop has passed. -/
theorem loop_ok (os : OS) (dir : GoString) : ∀ (l kept : List GoString) (w : World),
    w.disk dir = kept ++ l → (∀ y ∈ kept, prunable y = false) →
    (TrimCache.loop os dir l w).1 = none →
    (TrimCache.loop os dir l w).2.disk dir = kept ++ l.filter (fun x => !prunable x) ∧
    (TrimCache.loop os dir l w).2.trace =
      w.trace ++ (l.filter prunable).map (Event.Remove dir) := by
  intro l
  induction l with
  | nil => intro kept w hd _ _; simp [TrimCache.loop, hd]
  | cons f rest ih =>
    intro kept w hd hk hres
    by_cases hp : prunable f = true
    · rw [loop_cons_prunable os dir f rest w hp] at hres ⊢
      have hin : f ∈ w.disk dir := by rw [hd]; simp
      cases hr : os.RemoveErr dir f with
      | some e =>
        rw [remove_refused os dir f w e hin hr] at hres
        simp at hres
      | none =>
        rw [remove_ok os dir f w hin hr] at hres ⊢
        simp only at hres ⊢
        have hfk : f ∉ kept := by
          intro hmem
          have := hk f hmem
          rw [hp] at this
          exact Bool.noConfusion this
        have hd1 : (Function.update w.disk dir ((w.disk dir).erase f)) dir = kept ++ rest := by
          rw [Function.update_same, hd, List.erase_append_right _ hfk]
          simp
        obtain ⟨h1, h2⟩ := ih kept _ hd1 hk hres
        refine ⟨?_, ?_⟩
        · rw [h1]; simp [hp]
        · rw [h2]; simp [hp]
    · have hp2 : prunable f = false := by simpa using hp
      rw [loop_cons_skip os dir f rest w hp2] at hres ⊢
      have hd1 : w.disk dir = (kept ++ [f]) ++ rest := by rw [hd]; simp
      have hk1 : ∀ y ∈ kept ++ [f], prunable y = false := by
        intro y hy
        rcases List.mem_append.mp hy with hy | hy
        · exact hk y hy
        · rw [List.mem_singleton.mp hy]; exact hp2
      obtain ⟨h1, h2⟩ := ih (kept ++ [f]) w hd1 hk1 hres
      refine ⟨?_, ?_⟩
      · rw [h1]; simp [hp2]
      · rw [h2]; simp [hp2]

/-- A loop over entries none of which is prunable does nothing and returns `nil`. -/
theorem loop_nothing (os : OS) (dir : GoString) : ∀ (l : List GoString) (w : World),
    (∀ x ∈ l, prunable x = false) → TrimCache.loop os dir l w = (none, w) := by
  intro l
  induction l with
  | nil => intro w _; simp [TrimCache.loop]
  | cons f rest ih =>
    intro w h
    rw [loop_cons_skip os dir f rest w (h f (by simp))]
    exact ih w (fun x hx => h x (List.mem_cons_of_mem _ hx))

/-- Over entries whose prunable ones can all be removed the loop runs through:
it goes on with the rest in a world where exactly those are gone. Here `kept` is
the part of the directory the loop has passed. -/
theorem loop_pre (os : OS) (dir : GoString) (rest : List GoString) :
    ∀ (pre kept : List GoString) (w : World),
    w.disk dir = kept ++ (pre ++ rest) → (∀ y ∈ kept, prunable y = false) →
    (∀ x ∈ pre, prunable x = true → os.RemoveErr dir x = none) →
    ∃ w1 : World, TrimCache.loop os dir (pre ++ rest) w = TrimCache.loop os dir rest w1 ∧
      w1.disk dir = kept ++ (pre.filter (fun x => !prunable x) ++ rest) ∧
      w1.trace = w.trace ++ (pre.filter prunable).map (Event.Remove dir) := by
  intro pre
  induction pre with
  | nil => intro kept w hd _ _; exact ⟨w, by simp, by simpa using hd, by simp⟩
  | cons f pre ih =>
    intro kept w hd hk hrm
    have hd0 : w.disk dir = kept ++ f :: (pre ++ rest) := by simpa using hd
    by_cases hp : prunable f = true
    · have hin : f ∈ w.disk dir := by rw [hd0]; simp
      have hok := hrm f (by simp) hp
      rw [List.cons_append, loop_cons_prunable os dir f _ w hp, remove_ok os dir f w hin hok]
      simp only
      have hfk : f ∉ kept := by
        intro hmem
        have := hk f hmem
        rw [hp] at this
        exact Bool.noConfusion this
      have hd1 : (Function.update w.disk dir ((w.disk dir).erase f)) dir
          = kept ++ (pre ++ rest) := by
        rw [Function.update_same, hd0, List.erase_append_right _ hfk]
        simp
      obtain ⟨w1, h1, h2, h3⟩ := ih kept
        { disk := Function.update w.disk dir ((w.disk dir).erase f),
          trace := w.trace ++ [Event.Remove dir f] } hd1 hk
        (fun x hx => hrm x (List.mem_cons_of_mem _ hx))
      refine ⟨w1, h1, ?_, ?_⟩
      · rw [h2]; simp [hp]
      · rw [h3]; simp [hp]
    · have hp2 : prunable f = false := by simpa using hp
      rw [List.cons_append, loop_cons_skip os dir f _ w hp2]
      have hd1 : w.disk dir = (kept ++ [f]) ++ (pre ++ rest) := by rw [hd0]; simp
      have hk1 : ∀ y ∈ kept ++ [f], prunable y = false := by
        intro y hy
        rcases List.mem_append.mp hy with hy | hy
        · exact hk y hy
        · rw [List.mem_singleton.mp hy]; exact hp2
      obtain ⟨w1, h1, h2, h3⟩ := ih (kept ++ [f]) w hd1 hk1
        (fun x hx => hrm x (List.mem_cons_of_mem _ hx))
      refine ⟨w1, h1, ?_, ?_⟩
      · rw [h2]; simp [hp2]
      · rw [h3]; simp [hp2]

/-- With the sector found and the lock granted, `TrimCache` is its body followed by
the deferred `Unlock`. -/
theorem trimCache_locked (sb : SectorBuilder) (os : OS) (ctx : Context) (sectorID : Nat)
    (w : World) (dir : GoString)
    (hdir : sb.filesystem.FindSector .DataCache sb.Miner sectorID = .ok dir)
    (hlock : sb.filesystem.Lock ctx dir = none) :
    TrimCache sb os ctx sectorID w =
      ((TrimCache.body os dir
          { disk := w.disk,
            trace := w.trace ++ [Event.FindSector .DataCache sb.Miner sectorID] ++
              [Event.Lock dir] }).1,
        Unlock dir (TrimCache.body os dir
          { disk := w.disk,
            trace := w.trace ++ [Event.FindSector .DataCache sb.Miner sectorID] ++
              [Event.Lock dir] }).2) := by
  simp [TrimCache, FindSector, Lock, hdir, hlock]

/-- A `TrimCache` that returns `nil` found the sector, got the lock and could list
the directory. -/
theorem trimCache_nil_inv (sb : SectorBuilder) (os : OS) (ctx : Context) (sectorID : Nat)
    (w : World) (dir : GoString)
    (hdir : sb.filesystem.FindSector .DataCache sb.Miner sectorID = .ok dir)
    (hnil : (TrimCache sb os ctx sectorID w).1 = none) :
    sb.filesystem.Lock ctx dir = none ∧ os.ReadDirErr dir = none := by
  constructor
  · cases hl : sb.filesystem.Lock ctx dir with
    | none => rfl
    | some e => simp [TrimCache, FindSector, Lock, hdir, hl] at hnil
  · cases hl : sb.filesystem.Lock ctx dir with
    | some e => simp [TrimCache, FindSector, Lock, hdir, hl] at hnil
    | none =>
      cases hr : os.ReadDirErr dir with
      | none => rfl
      | some e =>
        rw [trimCache_locked sb os ctx sectorID w dir hdir hl] at hnil
        simp [TrimCache.body, ReadDir, hr] at hnil

/-- The body of `TrimCache` when the directory can be listed. -/
theorem body_listed (os : OS) (dir : GoString) (w : World) (hread : os.ReadDirErr dir = none) :
    TrimCache.body os dir w =
      TrimCache.loop os dir (w.disk dir)
        { disk := w.disk, trace := w.trace ++ [Event.ReadDir dir] } := by
  simp [TrimCache.body, ReadDir, hread]

/-- A `TrimCache` that returns `nil` leaves of the cache directory exactly the
entries that are not prunable, in their order. -/
theorem trimCache_nil_disk (sb : SectorBuilder) (os : OS) (ctx : Context)
    (sectorID : Nat) (w : World) (dir : GoString)
    (hdir : sb.filesystem.FindSector .DataCache sb.Miner sectorID = .ok dir)
    (hnil : (TrimCache sb os ctx sectorID w).1 = none) :
    (TrimCache sb os ctx sectorID w).2.disk dir =
      (w.disk dir).filter (fun x => !prunable x) := by
  obtain ⟨hlock, hread⟩ := trimCache_nil_inv sb os ctx sectorID w dir hdir hnil
  rw [trimCache_locked sb os ctx sectorID w dir hdir hlock] at hnil ⊢
  rw [body_listed os dir _ hread] at hnil ⊢
  simp only at hnil ⊢
  have h := loop_ok os dir (w.disk dir) []
    { disk := w.disk,
      trace := w.trace ++ [Event.FindSector .DataCache sb.Miner sectorID] ++
        [Event.Lock dir] ++ [Event.ReadDir dir] }
    (by simp) (by simp) hnil
  have hdisk := h.1
  simp only [List.nil_append] at hdisk
  simpa [Unlock] using hdisk

/-- With the lock granted, the calls of `TrimCache` are `FindSector`, `Lock`, calls
that are no `Unlock`, and one `Unlock` of the directory at the end. -/
theorem trimCache_trace_locked (sb : SectorBuilder) (os : OS) (ctx : Context)
    (sectorID : Nat) (w : World) (dir : GoString)
    (hdir : sb.filesystem.FindSector .DataCache sb.Miner sectorID = .ok dir)
    (hlock : sb.filesystem.Lock ctx dir = none) :
    ∃ mid : List Event,
      (TrimCache sb os ctx sectorID w).2.trace =
        w.trace ++ (Event.FindSector .DataCache sb.Miner sectorID :: Event.Lock dir :: mid
          ++ [Event.Unlock dir]) ∧
      ∀ e ∈ mid, ∀ d, e ≠ Event.Unlock d := by
  rw [trimCache_locked sb os ctx sectorID w dir hdir hlock]
  cases hr : os.ReadDirErr dir with
  | some e =>
    refine ⟨[Event.ReadDir dir], ?_, ?_⟩
    · simp [TrimCache.body, ReadDir, hr, Unlock]
    · intro e he d
      simp at he
      rw [he]; simp
  | none =>
    rw [body_listed os dir _ hr]
    obtain ⟨evs, h1, h2, _⟩ := loop_events os dir (w.disk dir)
      { disk := w.disk,
        trace := w.trace ++ [Event.FindSector .DataCache sb.Miner sectorID] ++
          [Event.Lock dir] ++ [Event.ReadDir dir] }
    refine ⟨Event.ReadDir dir :: evs, ?_, ?_⟩
    · simp only [Unlock]
      rw [h1]; simp
    · intro e he d
      rcases List.mem_cons.mp he with rfl | he
      · simp
      · obtain ⟨name, rfl⟩ := h2 e he
        simp

/-! ## `TrimCache`: what is removed -/

/-- C1: when `TrimCache` returns `nil`, a file that was in the cache directory is
absent afterwards if and only if its name ends in `.dat` and does not end in
`-data-tree-r-last.dat`; the directory afterwards is the directory before without
those files, every other entry in place. -/
theorem trimCache_removes_exactly_prunable (sb : SectorBuilder) (os : OS) (ctx : Context)
    (sectorID : Nat) (w : World) (dir : GoString)
    (hdir : sb.filesystem.FindSector .DataCache sb.Miner sectorID = .ok dir)
    (hnil : (TrimCache sb os ctx sectorID w).1 = none) :
    (∀ name ∈ w.disk dir,
      name ∉ (TrimCache sb os ctx sectorID w).2.disk dir ↔
        (HasSuffix name (str ".dat") = true ∧
          HasSuffix name (str "-data-tree-r-last.dat") = false)) ∧
    (TrimCache sb os ctx sectorID w).2.disk dir =
      (w.disk dir).filter (fun x => !prunable x) := by
  have hfin := trimCache_nil_disk sb os ctx sectorID w dir hdir hnil
  refine ⟨?_, hfin⟩
  intro name hname
  rw [hfin]
  simp only [List.mem_filter, hname, true_and, prunable]
  cases HasSuffix name (str ".dat") <;>
    cases HasSuffix name (str "-data-tree-r-last.dat") <;> simp

/-- The example of the spec for C1: from `a.dat`, `b-data-tree-r-last.dat` and `c.txt`
exactly `b-data-tree-r-last.dat` and `c.txt` remain. -/
theorem trimCache_removes_exactly_prunable_witness :
    (TrimCache exSb exOS exCtx 7 exWorld).1 = none ∧
    exWorld.disk exDir = [str "a.dat", str "b-data-tree-r-last.dat", str "c.txt"] ∧
    (TrimCache exSb exOS exCtx 7 exWorld).2.disk exDir =
      [str "b-data-tree-r-last.dat", str "c.txt"] ∧
    ((∀ name ∈ exWorld.disk exDir,
      name ∉ (TrimCache exSb exOS exCtx 7 exWorld).2.disk exDir ↔
        (HasSuffix name (str ".dat") = true ∧
          HasSuffix name (str "-data-tree-r-last.dat") = false)) ∧
    (TrimCache exSb exOS exCtx 7 exWorld).2.disk exDir =
      (exWorld.disk exDir).filter (fun x => !prunable x)) :=
  ⟨by decide, by decide, by decide,
    trimCache_removes_exactly_prunable exSb exOS exCtx 7 exWorld exDir rfl (by decide)⟩

/-! ## `TrimCache`: the lock -/

/-- C2: when the lock is acquired, the calls `TrimCache` adds to the trace end with
`Unlock` of the locked directory, and no other `Unlock` is among them, whatever the
listing and the removals do. -/
theorem trimCache_unlocks_once (sb : SectorBuilder) (os : OS) (ctx : Context)
    (sectorID : Nat) (w : World) (dir : GoString)
    (hdir : sb.filesystem.FindSector .DataCache sb.Miner sectorID = .ok dir)
    (hlock : sb.filesystem.Lock ctx dir = none) :
    ∃ mid : List Event,
      (TrimCache sb os ctx sectorID w).2.trace =
        w.trace ++ (Event.FindSector .DataCache sb.Miner sectorID :: Event.Lock dir :: mid
          ++ [Event.Unlock dir]) ∧
      ∀ e ∈ mid, ∀ d, e ≠ Event.Unlock d := by
  exact trimCache_trace_locked sb os ctx sectorID w dir hdir hlock

/-- The three exits of C2: success, a directory that cannot be listed, a refused
removal. -/
theorem trimCache_unlocks_once_witness :
    ((TrimCache exSb exOS exCtx 7 exWorld).1 = none ∧
      (TrimCache exSb exOSUnreadable exCtx 7 exWorld).1 ≠ none ∧
      (TrimCache exSb exOSRefuse exCtx 7 exWorld4).1 ≠ none) ∧
    (∃ mid : List Event,
      (TrimCache exSb exOS exCtx 7 exWorld).2.trace =
        exWorld.trace ++ (Event.FindSector .DataCache exSb.Miner 7 :: Event.Lock exDir :: mid
          ++ [Event.Unlock exDir]) ∧
      ∀ e ∈ mid, ∀ d, e ≠ Event.Unlock d) ∧
    (∃ mid : List Event,
      (TrimCache exSb exOSUnreadable exCtx 7 exWorld).2.trace =
        exWorld.trace ++ (Event.FindSector .DataCache exSb.Miner 7 :: Event.Lock exDir :: mid
          ++ [Event.Unlock exDir]) ∧
      ∀ e ∈ mid, ∀ d, e ≠ Event.Unlock d) ∧
    (∃ mid : List Event,
      (TrimCache exSb exOSRefuse exCtx 7 exWorld4).2.trace =
        exWorld4.trace ++ (Event.FindSector .DataCache exSb.Miner 7 :: Event.Lock exDir :: mid
          ++ [Event.Unlock exDir]) ∧
      ∀ e ∈ mid, ∀ d, e ≠ Event.Unlock d) :=
  ⟨⟨by decide, by decide, by decide⟩,
    trimCache_unlocks_once exSb exOS exCtx 7 exWorld exDir rfl rfl,
    trimCache_unlocks_once exSb exOSUnreadable exCtx 7 exWorld exDir rfl rfl,
    trimCache_unlocks_once exSb exOSRefuse exCtx 7 exWorld4 exDir rfl rfl⟩

/-- C3: if `Lock` returns an error, `TrimCache` returns that error wrapped as
"acquiring sector lock", the disk is as before and the only calls made are
`FindSector` and `Lock`; and in every run a `Remove` is among the calls of
`TrimCache` only if the lock was granted, the `Lock` call coming first. -/
theorem trimCache_lock_error (sb : SectorBuilder) (os : OS) (ctx : Context)
    (sectorID : Nat) (w : World) :
    (∀ dir e, sb.filesystem.FindSector .DataCache sb.Miner sectorID = .ok dir →
      sb.filesystem.Lock ctx dir = some e →
      (TrimCache sb os ctx sectorID w).1 = some (.wrap (str "acquiring sector lock") e) ∧
      (TrimCache sb os ctx sectorID w).2.disk = w.disk ∧
      (TrimCache sb os ctx sectorID w).2.trace =
        w.trace ++ [Event.FindSector .DataCache sb.Miner sectorID, Event.Lock dir]) ∧
    (∀ d name, Event.Remove d name ∈ newEvents w (TrimCache sb os ctx sectorID w).2 →
      ∃ dir, sb.filesystem.FindSector .DataCache sb.Miner sectorID = .ok dir ∧
        sb.filesystem.Lock ctx dir = none ∧
        ∃ later, newEvents w (TrimCache sb os ctx sectorID w).2 =
            Event.FindSector .DataCache sb.Miner sectorID :: Event.Lock dir :: later ∧
          Event.Remove d name ∈ later) := by
  constructor
  · intro dir e hdir hlock
    simp [TrimCache, FindSector, Lock, hdir, hlock]
  · intro d name hmem
    cases hdir : sb.filesystem.FindSector .DataCache sb.Miner sectorID with
    | error e =>
      simp [TrimCache, FindSector, hdir, newEvents] at hmem
    | ok dir =>
      cases hlock : sb.filesystem.Lock ctx dir with
      | some e =>
        simp [TrimCache, FindSector, Lock, hdir, hlock, newEvents] at hmem
      | none =>
        obtain ⟨mid, h1, _⟩ := trimCache_trace_locked sb os ctx sectorID w dir hdir hlock
        have hnew : newEvents w (TrimCache sb os ctx sectorID w).2 =
            Event.FindSector .DataCache sb.Miner sectorID :: Event.Lock dir ::
              (mid ++ [Event.Unlock dir]) := by
          simp [newEvents, h1]
        refine ⟨dir, rfl, hlock, mid ++ [Event.Unlock dir], hnew, ?_⟩
        rw [hnew] at hmem
        simpa using hmem

/-- A held lock, for C3: the three files of the example stay and nothing but
`FindSector` and `Lock` is called. -/
theorem trimCache_lock_error_witness :
    (TrimCache exSbBusy exOS exCtx 7 exWorld).1 =
        some (.wrap (str "acquiring sector lock") (.external (str "sector lock held"))) ∧
      (TrimCache exSbBusy exOS exCtx 7 exWorld).2.disk = exWorld.disk ∧
      (TrimCache exSbBusy exOS exCtx 7 exWorld).2.trace =
        exWorld.trace ++ [Event.FindSector .DataCache exSbBusy.Miner 7, Event.Lock exDir] :=
  (trimCache_lock_error exSbBusy exOS exCtx 7 exWorld).1 exDir
    (.external (str "sector lock held")) rfl rfl

/-! ## `TrimCache`: a removal that fails -/

/-- C4: if the directory lists as `pre ++ f :: post`, the prunable entries of `pre`
can be removed and the removal of the prunable entry `f` fails with `e`, then
`TrimCache` returns `e` wrapped as "rm f", the directory afterwards is `pre`
without its prunable entries followed by `f` and all of `post`, and after the
failed `Remove` the only call is the deferred `Unlock`. -/
theorem trimCache_remove_error (sb : SectorBuilder) (os : OS) (ctx : Context)
    (sectorID : Nat) (w : World) (dir : GoString) (pre post : List GoString)
    (f : GoString) (e : GoError)
    (hdir : sb.filesystem.FindSector .DataCache sb.Miner sectorID = .ok dir)
    (hlock : sb.filesystem.Lock ctx dir = none)
    (hread : os.ReadDirErr dir = none)
    (hls : w.disk dir = pre ++ f :: post)
    (hpre : ∀ x ∈ pre, prunable x = true → os.RemoveErr dir x = none)
    (hf : prunable f = true)
    (hfail : os.RemoveErr dir f = some e) :
    (TrimCache sb os ctx sectorID w).1 = some (.wrap (str "rm " ++ f) e) ∧
    (TrimCache sb os ctx sectorID w).2.disk dir =
      pre.filter (fun x => !prunable x) ++ f :: post ∧
    (TrimCache sb os ctx sectorID w).2.trace =
      w.trace ++ [Event.FindSector .DataCache sb.Miner sectorID, Event.Lock dir,
          Event.ReadDir dir] ++
        (pre.filter prunable).map (Event.Remove dir) ++
        [Event.Remove dir f, Event.Unlock dir] := by
  rw [trimCache_locked sb os ctx sectorID w dir hdir hlock, body_listed os dir _ hread]
  simp only
  obtain ⟨w1, h1, h2, h3⟩ := loop_pre os dir (f :: post) pre []
    { disk := w.disk,
      trace := w.trace ++ [Event.FindSector .DataCache sb.Miner sectorID] ++
        [Event.Lock dir] ++ [Event.ReadDir dir] }
    (by simpa using hls) (by simp) hpre
  rw [hls, h1]
  have hin : f ∈ w1.disk dir := by rw [h2]; simp
  rw [loop_cons_prunable os dir f post w1 hf, remove_refused os dir f w1 e hin hfail]
  simp only [Unlock]
  refine ⟨trivial, ?_, ?_⟩
  · simpa using h2
  · rw [h3]; simp

/-- An instance of C4: of `a.dat`, `aux`, `b.dat`, `c.dat` with `b.dat` refused,
`a.dat` is gone and `aux`, `b.dat`, `c.dat` stay. -/
theorem trimCache_remove_error_witness :
    (TrimCache exSb exOSRefuse exCtx 7 exWorld4).1 =
        some (.wrap (str "rm " ++ str "b.dat") (.external (str "operation not permitted"))) ∧
    (TrimCache exSb exOSRefuse exCtx 7 exWorld4).2.disk exDir =
      [str "a.dat", str "aux"].filter (fun x => !prunable x) ++
        str "b.dat" :: [str "c.dat"] ∧
    (TrimCache exSb exOSRefuse exCtx 7 exWorld4).2.trace =
      exWorld4.trace ++ [Event.FindSector .DataCache exSb.Miner 7, Event.Lock exDir,
          Event.ReadDir exDir] ++
        ([str "a.dat", str "aux"].filter prunable).map (Event.Remove exDir) ++
        [Event.Remove exDir (str "b.dat"), Event.Unlock exDir] :=
  trimCache_remove_error exSb exOSRefuse exCtx 7 exWorld4 exDir [str "a.dat", str "aux"]
    [str "c.dat"] (str "b.dat") (.external (str "operation not permitted"))
    rfl rfl rfl (by decide) (by decide) (by decide) (by decide)

/-! ## `TrimCache`: running it again -/

/-- C5: after a `TrimCache` that returned `nil`, a second `TrimCache` of the same
sector that finds the directory, gets the lock and can list the directory returns
`nil`, calls `Remove` for nothing and leaves the disk as the first run left it. -/
theorem trimCache_idempotent (sb sb2 : SectorBuilder) (os os2 : OS) (ctx ctx2 : Context)
    (sectorID : Nat) (w : World) (dir : GoString)
    (hdir : sb.filesystem.FindSector .DataCache sb.Miner sectorID = .ok dir)
    (hnil : (TrimCache sb os ctx sectorID w).1 = none)
    (hdir2 : sb2.filesystem.FindSector .DataCache sb2.Miner sectorID = .ok dir)
    (hlock2 : sb2.filesystem.Lock ctx2 dir = none)
    (hread2 : os2.ReadDirErr dir = none) :
    (TrimCache sb2 os2 ctx2 sectorID (TrimCache sb os ctx sectorID w).2).1 = none ∧
    (TrimCache sb2 os2 ctx2 sectorID (TrimCache sb os ctx sectorID w).2).2.disk =
      (TrimCache sb os ctx sectorID w).2.disk ∧
    (TrimCache sb2 os2 ctx2 sectorID (TrimCache sb os ctx sectorID w).2).2.trace =
      (TrimCache sb os ctx sectorID w).2.trace ++
        [Event.FindSector .DataCache sb2.Miner sectorID, Event.Lock dir, Event.ReadDir dir,
          Event.Unlock dir] := by
  have h1 := trimCache_nil_disk sb os ctx sectorID w dir hdir hnil
  generalize (TrimCache sb os ctx sectorID w).2 = w1 at h1 ⊢
  rw [trimCache_locked sb2 os2 ctx2 sectorID w1 dir hdir2 hlock2, body_listed os2 dir _ hread2]
  simp only
  rw [loop_nothing os2 dir (w1.disk dir) _ (by
    intro x hx
    rw [h1] at hx
    simpa using (List.mem_filter.mp hx).2)]
  simp [Unlock]

/-- The example of the spec run twice, for C5: the second run returns `nil` and
`b-data-tree-r-last.dat` and `c.txt` are still what remains. -/
theorem trimCache_idempotent_witness :
    (TrimCache exSb exOS exCtx 7 exWorld).1 = none ∧
    (TrimCache exSb exOS exCtx 7 (TrimCache exSb exOS exCtx 7 exWorld).2).2.disk exDir =
      [str "b-data-tree-r-last.dat", str "c.txt"] ∧
    ((TrimCache exSb exOS exCtx 7 (TrimCache exSb exOS exCtx 7 exWorld).2).1 = none ∧
    (TrimCache exSb exOS exCtx 7 (TrimCache exSb exOS exCtx 7 exWorld).2).2.disk =
      (TrimCache exSb exOS exCtx 7 exWorld).2.disk ∧
    (TrimCache exSb exOS exCtx 7 (TrimCache exSb exOS exCtx 7 exWorld).2).2.trace =
      (TrimCache exSb exOS exCtx 7 exWorld).2.trace ++
        [Event.FindSector .DataCache exSb.Miner 7, Event.Lock exDir, Event.ReadDir exDir,
          Event.Unlock exDir]) :=
  ⟨by decide, by decide,
    trimCache_idempotent exSb exSb exOS exOS exCtx exCtx 7 exWorld exDir rfl
      (by decide) rfl rfl rfl⟩

/-! ## `CanCommit` -/

/-- C6: `CanCommit` returns an error exactly when `FindSector` fails or the
directory it found cannot be listed, and then the result is `false`; otherwise it
returns no error and the result is `true` exactly when the directory has 10
entries, so `false` for 9, `true` for 10 and `false` for 11. The disk is not
changed. -/
theorem canCommit_iff_ten (sb : SectorBuilder) (os : OS) (sectorID : Nat) (w : World) :
    ((CanCommit sb os sectorID w).1.2 ≠ none ↔
      ((∃ e, sb.filesystem.FindSector .DataCache sb.Miner sectorID = .error e) ∨
        ∃ dir e, sb.filesystem.FindSector .DataCache sb.Miner sectorID = .ok dir ∧
          os.ReadDirErr dir = some e)) ∧
    ((CanCommit sb os sectorID w).1.2 ≠ none → (CanCommit sb os sectorID w).1.1 = false) ∧
    (∀ dir, sb.filesystem.FindSector .DataCache sb.Miner sectorID = .ok dir →
      os.ReadDirErr dir = none →
      (CanCommit sb os sectorID w).1.2 = none ∧
      ((CanCommit sb os sectorID w).1.1 = true ↔ (w.disk dir).length = 10) ∧
      ((w.disk dir).length = 9 → (CanCommit sb os sectorID w).1 = (false, none)) ∧
      ((w.disk dir).length = 10 → (CanCommit sb os sectorID w).1 = (true, none)) ∧
      ((w.disk dir).length = 11 → (CanCommit sb os sectorID w).1 = (false, none))) ∧
    (CanCommit sb os sectorID w).2.disk = w.disk := by
  cases hdir : sb.filesystem.FindSector .DataCache sb.Miner sectorID with
  | error e => simp [CanCommit, SectorPath, FindSector, hdir]
  | ok dir =>
    cases hr : os.ReadDirErr dir with
    | some e => simp [CanCommit, SectorPath, FindSector, ReadDir, hdir, hr]
    | none =>
      refine ⟨?_, ?_, ?_, ?_⟩
      · simp [CanCommit, SectorPath, FindSector, ReadDir, hdir, hr]
      · simp [CanCommit, SectorPath, FindSector, ReadDir, hdir, hr]
      · intro d hd hrd
        have hdd : d = dir := by
          injection hd with h; exact h.symm
        subst hdd
        refine ⟨?_, ?_, ?_, ?_, ?_⟩
        · simp [CanCommit, SectorPath, FindSector, ReadDir, hdir, hr]
        · simp [CanCommit, SectorPath, FindSector, ReadDir, hdir, hr]
        · intro hlen
          simp [CanCommit, SectorPath, FindSector, ReadDir, hdir, hr, hlen]
        · intro hlen
          simp [CanCommit, SectorPath, FindSector, ReadDir, hdir, hr, hlen]
        · intro hlen
          simp [CanCommit, SectorPath, FindSector, ReadDir, hdir, hr, hlen]
      · simp [CanCommit, SectorPath, FindSector, ReadDir, hdir, hr]

/-- The boundary cases of C6 on directories of 9, 10 and 11 entries, and the two
failures. -/
theorem canCommit_iff_ten_witness :
    (CanCommit exSb exOS 7 (exWorldN 9)).1 = (false, none) ∧
    (CanCommit exSb exOS 7 (exWorldN 10)).1 = (true, none) ∧
    (CanCommit exSb exOS 7 (exWorldN 11)).1 = (false, none) ∧
    (CanCommit exSbMissing exOS 7 (exWorldN 10)).1 =
      (false, some (.wrap (str "getting cache dir") (.external (str "sector not found")))) ∧
    (CanCommit exSb exOSUnreadable 7 (exWorldN 10)).1 =
      (false, some (.external (str "permission denied"))) :=
  ⟨((canCommit_iff_ten exSb exOS 7 (exWorldN 9)).2.2.1 exDir rfl rfl).2.2.1 (by decide),
    ((canCommit_iff_ten exSb exOS 7 (exWorldN 10)).2.2.1 exDir rfl rfl).2.2.2.1 (by decide),
    ((canCommit_iff_ten exSb exOS 7 (exWorldN 11)).2.2.1 exDir rfl rfl).2.2.2.2 (by decide),
    by decide, by decide⟩

/-! ## Lemmas about the copy of `toReadableFile` -/

theorem stop_le (env : PipeEnv) (m : Nat) : env.stop m ≤ m := by
  unfold PipeEnv.stop
  cases env.WriteErr with
  | none => exact Nat.le_refl m
  | some ke => exact Nat.min_le_right _ _

theorem stop_accepted (env : PipeEnv) (m : Nat) (h : env.accepts m = true) :
    env.stop m = m := by
  unfold PipeEnv.accepts at h
  unfold PipeEnv.stop
  cases hw : env.WriteErr with
  | none => rfl
  | some ke =>
    obtain ⟨k, e⟩ := ke
    rw [hw] at h
    have : m ≤ k := by simpa using h
    simp [Nat.min_eq_right this]

theorem flowing_written (env : PipeEnv) (src : List Nat) (fin : Option GoError) :
    (Copy.flowing env src fin).1.1 = ((Copy.flowing env src fin).2.length : Int) ∧
    (Copy.flowing env src fin).2 = src.take (Copy.flowing env src fin).2.length := by
  unfold Copy.flowing
  cases hw : env.WriteErr with
  | none => simp
  | some ke =>
    obtain ⟨k, e⟩ := ke
    by_cases hk : k < src.length
    · simp [hk, Nat.le_of_lt hk]
    · simp [hk]

theorem flowing_accepted (env : PipeEnv) (src : List Nat) (fin : Option GoError)
    (h : env.accepts src.length = true) :
    Copy.flowing env src fin = (((src.length : Int), fin), src) := by
  unfold PipeEnv.accepts at h
  unfold Copy.flowing
  cases hw : env.WriteErr with
  | none => rfl
  | some ke =>
    obtain ⟨k, e⟩ := ke
    rw [hw] at h
    have hk : ¬ k < src.length := by
      have : src.length ≤ k := by simpa using h
      omega
    simp [hk]

/-- A copy that is not stalled returns what the writes give. -/
theorem copy_flows (env : PipeEnv) (src : List Nat) (fin : Option GoError)
    (h : env.stalls (env.stop src.length) = false) :
    Copy env src fin = (some (Copy.flowing env src fin).1, (Copy.flowing env src fin).2) := by
  unfold PipeEnv.stalls at h
  unfold Copy
  cases hd : env.Drain with
  | none => rfl
  | some d =>
    rw [hd] at h
    have hlt : ¬ d + env.Capacity < env.stop src.length := by simpa using h
    simp [hlt]

/-- A stalled copy never returns, with fewer bytes written than it had to write. -/
theorem copy_stalls (env : PipeEnv) (src : List Nat) (fin : Option GoError)
    (h : env.stalls (env.stop src.length) = true) :
    ∃ d, env.Drain = some d ∧ d + env.Capacity < src.length ∧
      Copy env src fin = (none, src.take (d + env.Capacity)) := by
  unfold PipeEnv.stalls at h
  cases hd : env.Drain with
  | none => rw [hd] at h; simp at h
  | some d =>
    rw [hd] at h
    have hlt : d + env.Capacity < env.stop src.length := by simpa using h
    refine ⟨d, rfl, Nat.lt_of_lt_of_le hlt (stop_le env _), ?_⟩
    unfold Copy
    simp [hd, hlt]

/-- The stalled copy of `n` bytes: `io.CopyN` never returns, and fewer bytes than
`n` and than the source has are in the pipe. -/
theorem copyN_stalls (env : PipeEnv) (s : Stream) (n : Int) (h : copyStalls env s n = true) :
    ∃ d, env.Drain = some d ∧ ((d + env.Capacity : Nat) : Int) < n ∧
      d + env.Capacity < s.data.length ∧
      CopyN env s n = (none, s.data.take (d + env.Capacity)) := by
  unfold copyStalls at h
  have hlen : (s.data.take n.toNat).length = min n.toNat s.data.length := List.length_take _ _
  rw [← hlen] at h
  obtain ⟨d, hd, hlt, hc⟩ := copy_stalls env (s.data.take n.toNat)
    (if n.toNat ≤ s.data.length then none else s.fail) h
  rw [hlen] at hlt
  have h1 : d + env.Capacity < n.toNat := Nat.lt_of_lt_of_le hlt (Nat.min_le_left _ _)
  have h2 : d + env.Capacity < s.data.length := Nat.lt_of_lt_of_le hlt (Nat.min_le_right _ _)
  refine ⟨d, hd, by omega, h2, ?_⟩
  unfold CopyN
  simp only [hc]
  rw [List.take_take, Nat.min_eq_left (Nat.le_of_lt h1)]

/-- When `io.CopyN` returns, it returns one of three results made from what the
writes gave. -/
theorem copyN_flows (env : PipeEnv) (s : Stream) (n : Int) (h : copyStalls env s n = false) :
    ∃ c : (Int × Option GoError) × List Nat,
      c = Copy.flowing env (s.data.take n.toNat)
        (if n.toNat ≤ s.data.length then none else s.fail) ∧
      ((c.1.1 = n ∧ CopyN env s n = (some (n, none), c.2)) ∨
       (c.1.1 ≠ n ∧ c.1.1 < n ∧ c.1.2 = none ∧ CopyN env s n = (some (c.1.1, some .EOF), c.2)) ∨
       (c.1.1 ≠ n ∧ ¬ (c.1.1 < n ∧ c.1.2 = none) ∧ CopyN env s n = (some c.1, c.2))) := by
  unfold copyStalls at h
  have hlen : (s.data.take n.toNat).length = min n.toNat s.data.length := List.length_take _ _
  rw [← hlen] at h
  have hc := copy_flows env (s.data.take n.toNat)
    (if n.toNat ≤ s.data.length then none else s.fail) h
  refine ⟨_, rfl, ?_⟩
  unfold CopyN
  simp only [hc]
  generalize Copy.flowing env (s.data.take n.toNat)
    (if n.toNat ≤ s.data.length then none else s.fail) = c
  by_cases h1 : c.1.1 = n
  · left; exact ⟨h1, by simp [h1]⟩
  · by_cases h2 : c.1.1 < n ∧ c.1.2 = none
    · right; left; exact ⟨h1, h2.1, h2.2, by simp [h1, h2]⟩
    · right; right; exact ⟨h1, h2, by simp [h1, h2]⟩

/-- The facts about a copy that returns: what `io.CopyN` reports as written is the
number of bytes that reached the pipe, those bytes are the first so many bytes of
the source, and with an error reported the number is not `n`. -/
theorem copyN_returns (env : PipeEnv) (s : Stream) (n : Int) (h : copyStalls env s n = false) :
    ∃ (copied : Int) (err : Option GoError) (bytes : List Nat),
      CopyN env s n = (some (copied, err), bytes) ∧
      copied = (bytes.length : Int) ∧
      bytes = s.data.take bytes.length ∧
      (err ≠ none → copied ≠ n) ∧
      ((s.data.length : Int) < n → copied ≠ n ∧ err ≠ none) ∧
      bytes = (Copy.flowing env (s.data.take n.toNat)
        (if n.toNat ≤ s.data.length then none else s.fail)).2 := by
  obtain ⟨c, hc, hcases⟩ := copyN_flows env s n h
  have hw := flowing_written env (s.data.take n.toNat)
    (if n.toNat ≤ s.data.length then none else s.fail)
  rw [← hc] at hw
  have hpre : c.2 = s.data.take c.2.length := by
    have h2 := hw.2
    have hlen : c.2.length ≤ n.toNat := by
      have := congrArg List.length h2
      rw [List.length_take, List.length_take] at this
      omega
    rw [List.take_take, Nat.min_eq_left hlen] at h2
    exact h2
  have hle : c.2.length ≤ s.data.length := by
    have := congrArg List.length hpre
    rw [List.length_take] at this
    omega
  have hb : c.2 = (Copy.flowing env (s.data.take n.toNat)
      (if n.toNat ≤ s.data.length then none else s.fail)).2 := by rw [hc]
  rcases hcases with ⟨h1, heq⟩ | ⟨h1, h2, _, heq⟩ | ⟨h1, h2, heq⟩
  · refine ⟨n, none, c.2, heq, by rw [← h1]; exact hw.1, hpre, by simp, ?_, hb⟩
    intro hshort
    rw [hw.1] at h1
    omega
  · exact ⟨c.1.1, some .EOF, c.2, heq, hw.1, hpre, fun _ => h1, fun _ => ⟨h1, by simp⟩, hb⟩
  · refine ⟨c.1.1, c.1.2, c.2, heq, hw.1, hpre, fun _ => h1, ?_, hb⟩
    intro hshort
    refine ⟨h1, ?_⟩
    intro hnone
    apply h2
    refine ⟨?_, hnone⟩
    rw [hw.1]
    omega

/-! ## Lemmas about the background task of `toReadableFile` -/

/-- A background task whose copy never returns only adds bytes to the pipe. -/
theorem goroutine_stalled (env : PipeEnv) (s : Stream) (n : Int) (rt : Runtime)
    (bytes : List Nat) (hc : CopyN env s n = (none, bytes)) :
    toReadableFile.goroutine env s n rt = { rt with pipe := rt.pipe ++ bytes } := by
  unfold toReadableFile.goroutine
  rw [hc]

/-- What a background task whose copy returns leaves apart from `werr`: the bytes
of the copy appended to the pipe, one `Close` more, the mutex free. -/
theorem goroutine_frame (env : PipeEnv) (s : Stream) (n : Int) (rt : Runtime)
    (copied : Int) (err : Option GoError) (bytes : List Nat)
    (hc : CopyN env s n = (some (copied, err), bytes)) :
    (toReadableFile.goroutine env s n rt).pipe = rt.pipe ++ bytes ∧
    (toReadableFile.goroutine env s n rt).wait = false ∧
    (toReadableFile.goroutine env s n rt).closes = rt.closes + 1 ∧
    (toReadableFile.goroutine env s n rt).pending = rt.pending := by
  unfold toReadableFile.goroutine
  rw [hc]
  cases err <;> cases h2 : env.CloseErr <;>
    by_cases h3 : copied = n <;> simp [h2, h3]

/-- After a copy that reported an error the recorded error is the byte-count
mismatch. -/
theorem goroutine_werr_mismatch (env : PipeEnv) (s : Stream) (n : Int) (rt : Runtime)
    (copied : Int) (err : Option GoError) (bytes : List Nat)
    (hc : CopyN env s n = (some (copied, err), bytes))
    (hne : copied ≠ n) (herr : err ≠ none) :
    (toReadableFile.goroutine env s n rt).werr = some (mismatchError copied n) := by
  unfold toReadableFile.goroutine
  rw [hc]
  cases err with
  | none => exact absurd rfl herr
  | some e => cases h2 : env.CloseErr <;> simp [h2, hne]

/-- After a copy of exactly `n` bytes the recorded error is that of `Close`. -/
theorem goroutine_werr_full (env : PipeEnv) (s : Stream) (n : Int) (rt : Runtime)
    (bytes : List Nat) (hc : CopyN env s n = (some (n, none), bytes)) :
    (toReadableFile.goroutine env s n rt).werr = env.CloseErr := by
  unfold toReadableFile.goroutine
  rw [hc]
  cases h2 : env.CloseErr <;> simp [h2]

/-- After a copy that returned, the recorded error is `nil` exactly when `n` bytes
were copied and `Close` succeeded. -/
theorem goroutine_werr_nil (env : PipeEnv) (s : Stream) (n : Int) (rt : Runtime)
    (copied : Int) (err : Option GoError) (bytes : List Nat)
    (hc : CopyN env s n = (some (copied, err), bytes))
    (hcon : err ≠ none → copied ≠ n) :
    (toReadableFile.goroutine env s n rt).werr = none ↔ (copied = n ∧ env.CloseErr = none) := by
  unfold toReadableFile.goroutine
  rw [hc]
  cases err with
  | none =>
    cases h2 : env.CloseErr <;> by_cases h3 : copied = n <;> simp [h2, h3]
  | some e =>
    have h3 : copied ≠ n := hcon (by simp)
    cases h2 : env.CloseErr <;> simp [h2, h3]

/-- The slow path: what `toReadableFile` returns for a reader that is no file when
the pipe can be made. -/
theorem toReadableFile_stream (env : PipeEnv) (s : Stream) (n : Int) (rt : Runtime)
    (hpipe : env.PipeErr = none) :
    toReadableFile env (.stream s) n rt =
      ({ f := some (.pipeRead rt.pipes), done := some .await, err := none },
        { rt with
          pipes := rt.pipes + 1, pipe := [], closes := 0,
          wait := true, werr := none,
          goroutines := rt.goroutines + 1, pending := some (s, n) }) := by
  simp [toReadableFile, hpipe]

/-- The background task of the slow path is the body of the `go` statement. -/
theorem runPending_stream (env : PipeEnv) (s : Stream) (n : Int) (rt : Runtime)
    (hpipe : env.PipeErr = none) :
    runPending env (toReadableFile env (.stream s) n rt).2 =
      toReadableFile.goroutine env s n
        { (toReadableFile env (.stream s) n rt).2 with pending := none } := by
  rw [toReadableFile_stream env s n rt hpipe]
  simp [runPending]

/-- What the background task of the slow path has written to the pipe. -/
theorem stream_pipe (env : PipeEnv) (s : Stream) (n : Int) (rt : Runtime)
    (hpipe : env.PipeErr = none) :
    (runPending env (toReadableFile env (.stream s) n rt).2).pipe = (CopyN env s n).2 := by
  rw [runPending_stream env s n rt hpipe]
  rcases hc : CopyN env s n with ⟨r, bytes⟩
  cases r with
  | none =>
    rw [goroutine_stalled env s n _ bytes hc, toReadableFile_stream env s n rt hpipe]
    simp
  | some ce =>
    obtain ⟨copied, err⟩ := ce
    rw [(goroutine_frame env s n _ copied err bytes hc).1,
      toReadableFile_stream env s n rt hpipe]
    simp

/-- When the copy is not stalled, the first call of the completion function of the
slow path returns what the background task recorded, and leaves the mutex held
with no task pending. -/
theorem run_first (env : PipeEnv) (s : Stream) (n : Int) (rt : Runtime)
    (hpipe : env.PipeErr = none) (hflow : copyStalls env s n = false) :
    ∃ rt1 : Runtime,
      Completion.run env .await (toReadableFile env (.stream s) n rt).2 =
        some ((runPending env (toReadableFile env (.stream s) n rt).2).werr, rt1) ∧
      rt1.wait = true ∧ rt1.pending = none := by
  obtain ⟨copied, err, bytes, hc, _⟩ := copyN_returns env s n hflow
  have hrun := runPending_stream env s n rt hpipe
  have hf := goroutine_frame env s n
    { (toReadableFile env (.stream s) n rt).2 with pending := none } copied err bytes hc
  rw [← hrun] at hf
  have hw0 : (toReadableFile env (.stream s) n rt).2.wait = true := by
    rw [toReadableFile_stream env s n rt hpipe]
  refine ⟨{ runPending env (toReadableFile env (.stream s) n rt).2 with wait := true },
    ?_, rfl, hf.2.2.2⟩
  simp [Completion.run, Completion.call, hw0, hf.2.1]

/-- When the copy is stalled, the first call of the completion function of the
slow path never returns: the mutex stays held, with no task left to free it. -/
theorem run_stalled (env : PipeEnv) (s : Stream) (n : Int) (rt : Runtime)
    (hpipe : env.PipeErr = none) (hstall : copyStalls env s n = true) :
    Completion.run env .await (toReadableFile env (.stream s) n rt).2 = none ∧
    (runPending env (toReadableFile env (.stream s) n rt).2).wait = true ∧
    (runPending env (toReadableFile env (.stream s) n rt).2).pending = none := by
  obtain ⟨d, _, _, _, hc⟩ := copyN_stalls env s n hstall
  have hrun := runPending_stream env s n rt hpipe
  rw [goroutine_stalled env s n _ _ hc] at hrun
  have hw0 : (toReadableFile env (.stream s) n rt).2.wait = true := by
    rw [toReadableFile_stream env s n rt hpipe]
  have hw1 : (runPending env (toReadableFile env (.stream s) n rt).2).wait = true := by
    rw [hrun]; exact hw0
  refine ⟨?_, hw1, by rw [hrun]⟩
  simp [Completion.run, Completion.call, hw0, hw1]

/-- A state with the mutex held and no task pending stays as it is, and the
completion function of the slow path cannot proceed in it. -/
theorem held_forever (env : PipeEnv) (rt1 : Runtime)
    (hw : rt1.wait = true) (hp : rt1.pending = none) :
    Completion.run env .await rt1 = none ∧
    ∀ k : Nat, Completion.call .await ((runPending env)^[k] rt1) = none := by
  have hfix : runPending env rt1 = rt1 := by simp [runPending, hp]
  have hcall : Completion.call .await rt1 = none := by simp [Completion.call, hw]
  refine ⟨by simp [Completion.run, hfix, hcall], ?_⟩
  intro k
  rw [Function.iterate_fixed hfix k]
  exact hcall

/-- A first call of the completion function of the slow path that has returned:
the copy was not stalled, the result is what the background task recorded, and
the mutex is left held with no task pending. -/
theorem run_inv (env : PipeEnv) (s : Stream) (n : Int) (rt : Runtime)
    (hpipe : env.PipeErr = none) (e : Option GoError) (rt1 : Runtime)
    (hret : Completion.run env .await (toReadableFile env (.stream s) n rt).2 = some (e, rt1)) :
    copyStalls env s n = false ∧
    e = (runPending env (toReadableFile env (.stream s) n rt).2).werr ∧
    rt1.wait = true ∧ rt1.pending = none := by
  cases hs : copyStalls env s n with
  | true =>
    rw [(run_stalled env s n rt hpipe hs).1] at hret
    exact Option.noConfusion hret
  | false =>
    obtain ⟨rt2, h1, hw, hp⟩ := run_first env s n rt hpipe hs
    rw [h1] at hret
    injection hret with hret
    injection hret with he hrt
    subst hrt
    exact ⟨rfl, he.symm, hw, hp⟩

/-- With `n` at most the length of the source and no failing write among the first
`n` bytes, the copy is stalled exactly when the write of `n` bytes is. -/
theorem copyStalls_full (env : PipeEnv) (s : Stream) (n : Int)
    (hlong : n ≤ (s.data.length : Int)) (hacc : env.accepts n.toNat = true) :
    copyStalls env s n = env.stalls n.toNat := by
  unfold copyStalls
  have hmin : min n.toNat s.data.length = n.toNat := by
    apply Nat.min_eq_left
    omega
  rw [hmin, stop_accepted env _ hacc]

/-- A stalled copy on the slow path: the completion function never returns and the
pipe holds what the consumer read and the buffer took. -/
theorem stalled_pipe (env : PipeEnv) (s : Stream) (n : Int) (rt : Runtime) (d : Nat)
    (hpipe : env.PipeErr = none) (hstall : copyStalls env s n = true)
    (hd : env.Drain = some d) :
    Completion.run env .await (toReadableFile env (.stream s) n rt).2 = none ∧
    (runPending env (toReadableFile env (.stream s) n rt).2).pipe =
      s.data.take (d + env.Capacity) := by
  obtain ⟨d2, hd2, _, _, hc⟩ := copyN_stalls env s n hstall
  rw [hd] at hd2
  injection hd2 with hd2
  subst hd2
  exact ⟨(run_stalled env s n rt hpipe hstall).1, by rw [stream_pipe env s n rt hpipe, hc]⟩

/-- The stream `exStreamBig` has 70000 bytes. -/
theorem exStreamBig_length : exStreamBig.data.length = 70000 :=
  List.length_replicate 70000 0

/-! ## `toReadableFile`: calling the completion function again -/

/-- C7, as the code has it: on the slow path, once the completion function has
returned, it has returned the error the background task recorded, and the mutex
stays held with nothing left to release it, so a further call never returns,
however long it waits. The first call does return when the copy is not stalled,
and does not when it is. -/
theorem completion_one_shot (env : PipeEnv) (s : Stream) (n : Int) (rt : Runtime)
    (hpipe : env.PipeErr = none) :
    (toReadableFile env (.stream s) n rt).1.done = some .await ∧
    (∀ (e : Option GoError) (rt1 : Runtime),
      Completion.run env .await (toReadableFile env (.stream s) n rt).2 = some (e, rt1) →
        e = (runPending env (toReadableFile env (.stream s) n rt).2).werr ∧
        Completion.run env .await rt1 = none ∧
        ∀ k : Nat, Completion.call .await ((runPending env)^[k] rt1) = none) ∧
    (copyStalls env s n = false →
      ∃ (e : Option GoError) (rt1 : Runtime),
        Completion.run env .await (toReadableFile env (.stream s) n rt).2 = some (e, rt1)) ∧
    (copyStalls env s n = true →
      Completion.run env .await (toReadableFile env (.stream s) n rt).2 = none) := by
  refine ⟨by rw [toReadableFile_stream env s n rt hpipe], ?_, ?_, ?_⟩
  · intro e rt1 hret
    obtain ⟨_, he, hw, hp⟩ := run_inv env s n rt hpipe e rt1 hret
    exact ⟨he, held_forever env rt1 hw hp⟩
  · intro hflow
    obtain ⟨rt1, h1, _, _⟩ := run_first env s n rt hpipe hflow
    exact ⟨_, rt1, h1⟩
  · intro hstall
    exact (run_stalled env s n rt hpipe hstall).1

/-- An instance of C7 as the code has it: three bytes, `n = 3`, a pipe without
errors that is read; the first call returns `nil`, the second never returns. -/
theorem completion_one_shot_witness :
    Completion.run exPipe .await (toReadableFile exPipe (.stream exStream3) 3 Runtime.start).2 =
      some (none,
        { runPending exPipe (toReadableFile exPipe (.stream exStream3) 3 Runtime.start).2
          with wait := true }) ∧
    (none = (runPending exPipe
        (toReadableFile exPipe (.stream exStream3) 3 Runtime.start).2).werr ∧
      Completion.run exPipe .await
        { runPending exPipe (toReadableFile exPipe (.stream exStream3) 3 Runtime.start).2
          with wait := true } = none ∧
      ∀ k : Nat, Completion.call .await ((runPending exPipe)^[k]
        { runPending exPipe (toReadableFile exPipe (.stream exStream3) 3 Runtime.start).2
          with wait := true }) = none) :=
  ⟨by decide,
    (completion_one_shot exPipe exStream3 3 Runtime.start rfl).2.1 none
      { runPending exPipe (toReadableFile exPipe (.stream exStream3) 3 Runtime.start).2
        with wait := true } (by decide)⟩

/-- C7 fails: for a stream of three bytes and `n = 3` the first call of the
completion function returns `nil`, and the second call, made in the state the
first one left, does not return. -/
theorem completion_second_call_blocks :
    (toReadableFile exPipe (.stream exStream3) 3 Runtime.start).1.done = some .await ∧
    (Completion.run exPipe .await
      (toReadableFile exPipe (.stream exStream3) 3 Runtime.start).2).map Prod.fst
        = some none ∧
    ((Completion.run exPipe .await
      (toReadableFile exPipe (.stream exStream3) 3 Runtime.start).2).bind
        (fun r => Completion.run exPipe .await r.2)) = none := by
  decide

/-! ## `toReadableFile`: a source shorter than `n` -/

/-- C8, as the code has it: for a source of fewer than `n` bytes whose copy is not
stalled, the completion function returns the byte-count mismatch error, with the
number of bytes written to the pipe as `copied`, whatever `Close` returns; the
bytes written to the pipe are the first `copied` bytes of the source in order, and
they are all the bytes of the source when no write to the pipe fails. -/
theorem toReadableFile_short_source (env : PipeEnv) (s : Stream) (n : Int) (rt : Runtime)
    (hpipe : env.PipeErr = none) (hshort : (s.data.length : Int) < n)
    (hflow : copyStalls env s n = false) :
    (Completion.run env .await (toReadableFile env (.stream s) n rt).2).map Prod.fst =
      some (some (mismatchError
        ((runPending env (toReadableFile env (.stream s) n rt).2).pipe.length : Int) n)) ∧
    (runPending env (toReadableFile env (.stream s) n rt).2).pipe =
      s.data.take (runPending env (toReadableFile env (.stream s) n rt).2).pipe.length ∧
    (env.accepts s.data.length = true →
      (runPending env (toReadableFile env (.stream s) n rt).2).pipe = s.data) := by
  obtain ⟨rt1, h1, _, _⟩ := run_first env s n rt hpipe hflow
  obtain ⟨copied, err, bytes, hc, hlen, hpre, _, hsh, hbytes⟩ := copyN_returns env s n hflow
  have hp : (runPending env (toReadableFile env (.stream s) n rt).2).pipe = bytes := by
    rw [stream_pipe env s n rt hpipe, hc]
  obtain ⟨hne, herr⟩ := hsh hshort
  refine ⟨?_, ?_, ?_⟩
  · rw [h1, runPending_stream env s n rt hpipe,
      goroutine_werr_mismatch env s n _ copied err bytes hc hne herr,
      ← runPending_stream env s n rt hpipe, hp, ← hlen]
    rfl
  · rw [hp]; exact hpre
  · intro hacc
    rw [hp, hbytes]
    have htake : s.data.take n.toNat = s.data := by
      apply List.take_of_length_le
      omega
    rw [htake, flowing_accepted env s.data _ hacc]

/-- An instance of C8 as the code has it: two bytes for `n = 5`, a pipe without
errors that is read; the message reads "2 != 5", also when `Close` fails, and both
bytes are in the pipe. -/
theorem toReadableFile_short_source_witness :
    (mismatchError 2 5).Error = str "copied different amount than expected: 2 != 5" ∧
    (runPending exPipe (toReadableFile exPipe (.stream exStream2) 5 Runtime.start).2).pipe
      = [1, 2] ∧
    (Completion.run exPipeCloseErr .await
        (toReadableFile exPipeCloseErr (.stream exStream2) 5 Runtime.start).2).map Prod.fst =
      some (some (mismatchError 2 5)) ∧
    ((Completion.run exPipe .await
        (toReadableFile exPipe (.stream exStream2) 5 Runtime.start).2).map Prod.fst =
      some (some (mismatchError
        ((runPending exPipe
          (toReadableFile exPipe (.stream exStream2) 5 Runtime.start).2).pipe.length : Int) 5)) ∧
    (runPending exPipe (toReadableFile exPipe (.stream exStream2) 5 Runtime.start).2).pipe =
      exStream2.data.take
        (runPending exPipe
          (toReadableFile exPipe (.stream exStream2) 5 Runtime.start).2).pipe.length ∧
    (exPipe.accepts exStream2.data.length = true →
      (runPending exPipe (toReadableFile exPipe (.stream exStream2) 5 Runtime.start).2).pipe
        = exStream2.data)) :=
  ⟨by decide, by decide, by decide,
    toReadableFile_short_source exPipe exStream2 5 Runtime.start rfl (by decide) (by decide)⟩

/-- C8 fails, in two ways. A source of the two bytes 1, 2 with `n = 5` and a pipe
whose first write fails: the completion function returns the mismatch error
"0 != 5" and the pipe holds nothing, not the two bytes the source produced. A
source of 70000 bytes with `n = 80000` and a pipe of 64 KiB that is not read: the
completion function does not return, and the pipe holds 65536 bytes. -/
theorem short_source_broken_pipe :
    ((exStream2.data.length : Int) < 5 ∧
      (Completion.run exPipeBroken .await
        (toReadableFile exPipeBroken (.stream exStream2) 5 Runtime.start).2).map Prod.fst =
          some (some (mismatchError 0 5)) ∧
      (runPending exPipeBroken
        (toReadableFile exPipeBroken (.stream exStream2) 5 Runtime.start).2).pipe = [] ∧
      (runPending exPipeBroken
        (toReadableFile exPipeBroken (.stream exStream2) 5 Runtime.start).2).pipe
          ≠ exStream2.data) ∧
    ((exStreamBig.data.length : Int) < 80000 ∧
      Completion.run exPipeUnread .await
        (toReadableFile exPipeUnread (.stream exStreamBig) 80000 Runtime.start).2 = none ∧
      (runPending exPipeUnread
        (toReadableFile exPipeUnread (.stream exStreamBig) 80000 Runtime.start).2).pipe.length
          = 65536) := by
  refine ⟨by decide, ?_⟩
  have hstall : copyStalls exPipeUnread exStreamBig 80000 = true := by
    rw [copyStalls, exStreamBig_length]; decide
  obtain ⟨hrun, hpipe⟩ := stalled_pipe exPipeUnread exStreamBig 80000 Runtime.start 0
    rfl hstall rfl
  refine ⟨by rw [exStreamBig_length]; decide, hrun, ?_⟩
  rw [hpipe, List.length_take, exStreamBig_length]
  decide

/-! ## `toReadableFile`: a source of at least `n` bytes -/

/-- C9, as the code has it: for a source of at least `n` bytes, `n` not negative,
whose first `n` bytes the pipe takes without a write error and without a write
that blocks for ever, the background task writes to the pipe exactly the first
`n` bytes of the source, in order, and the completion function returns what
`Close` returned, so `nil` when `Close` succeeded. For every source, every `n` and
every consumer the completion function returns `nil` if and only if exactly `n`
bytes were written to the pipe and `Close` succeeded. -/
theorem toReadableFile_copies_n (env : PipeEnv) (s : Stream) (n : Int) (rt : Runtime)
    (hpipe : env.PipeErr = none) :
    (0 ≤ n → n ≤ (s.data.length : Int) → env.accepts n.toNat = true →
      env.stalls n.toNat = false →
      (runPending env (toReadableFile env (.stream s) n rt).2).pipe = s.data.take n.toNat ∧
      (Completion.run env .await (toReadableFile env (.stream s) n rt).2).map Prod.fst =
        some env.CloseErr ∧
      (env.CloseErr = none →
        (Completion.run env .await (toReadableFile env (.stream s) n rt).2).map Prod.fst =
          some none)) ∧
    ((Completion.run env .await (toReadableFile env (.stream s) n rt).2).map Prod.fst =
        some none ↔
      (((runPending env (toReadableFile env (.stream s) n rt).2).pipe.length : Int) = n ∧
        env.CloseErr = none)) := by
  have hrun := runPending_stream env s n rt hpipe
  constructor
  · intro hn hlong hacc hroom
    have hflow : copyStalls env s n = false := by
      rw [copyStalls_full env s n hlong hacc]; exact hroom
    obtain ⟨rt1, h1, _, _⟩ := run_first env s n rt hpipe hflow
    obtain ⟨copied, err, bytes, hc, hlen, _, hcon, _, hbytes⟩ := copyN_returns env s n hflow
    have htl : (s.data.take n.toNat).length = n.toNat := by
      rw [List.length_take]; omega
    have hfl := flowing_accepted env (s.data.take n.toNat)
      (if n.toNat ≤ s.data.length then none else s.fail) (by rw [htl]; exact hacc)
    have hb : bytes = s.data.take n.toNat := by rw [hbytes, hfl]
    have hcop : copied = n := by
      rw [hlen, hb, htl]
      exact Int.toNat_of_nonneg hn
    have herr : err = none := by
      cases err with
      | none => rfl
      | some e => exact absurd hcop (hcon (by simp))
    rw [hcop, herr] at hc
    have hres : (Completion.run env .await (toReadableFile env (.stream s) n rt).2).map
        Prod.fst = some env.CloseErr := by
      rw [h1, hrun, goroutine_werr_full env s n _ bytes hc]
      rfl
    refine ⟨by rw [stream_pipe env s n rt hpipe, hc, hb], hres, ?_⟩
    intro hclose
    rw [hres, hclose]
  · cases hs : copyStalls env s n with
    | false =>
      obtain ⟨rt1, h1, _, _⟩ := run_first env s n rt hpipe hs
      obtain ⟨copied, err, bytes, hc, hlen, _, hcon, _, _⟩ := copyN_returns env s n hs
      rw [h1, stream_pipe env s n rt hpipe, hc, ← hlen]
      simp only [Option.map_some', Option.some.injEq]
      rw [hrun]
      exact goroutine_werr_nil env s n _ copied err bytes hc hcon
    | true =>
      obtain ⟨d, hd, hlt, hlt2, hc⟩ := copyN_stalls env s n hs
      rw [(run_stalled env s n rt hpipe hs).1, stream_pipe env s n rt hpipe, hc]
      simp only [Option.map_none', List.length_take]
      constructor
      · intro h; exact Option.noConfusion h
      · intro h
        have := h.1
        omega

/-- Instances of C9 as the code has it: three bytes copied from a source of three
with `nil` returned, the same with a failing `Close`, and the first two bytes of
three for `n = 2`. -/
theorem toReadableFile_copies_n_witness :
    ((runPending exPipe (toReadableFile exPipe (.stream exStream3) 3 Runtime.start).2).pipe
        = exStream3.data.take (3 : Int).toNat ∧
      (Completion.run exPipe .await
        (toReadableFile exPipe (.stream exStream3) 3 Runtime.start).2).map Prod.fst =
          some exPipe.CloseErr ∧
      (exPipe.CloseErr = none →
        (Completion.run exPipe .await
          (toReadableFile exPipe (.stream exStream3) 3 Runtime.start).2).map Prod.fst =
            some none)) ∧
    (Completion.run exPipeCloseErr .await
        (toReadableFile exPipeCloseErr (.stream exStream3) 3 Runtime.start).2).map Prod.fst =
      some (some (.external (str "bad file descriptor"))) ∧
    (runPending exPipe (toReadableFile exPipe (.stream exStream3) 2 Runtime.start).2).pipe
      = [1, 2] :=
  ⟨(toReadableFile_copies_n exPipe exStream3 3 Runtime.start rfl).1
      (by decide) (by decide) (by decide) (by decide),
    by decide, by decide⟩

/-- C9 fails: a source of 70000 bytes with `n = 70000`, no read error, no write
error and a `Close` that succeeds, into a pipe of 64 KiB that is not read; the
completion function does not return, and the pipe holds 65536 bytes, not the
first 70000. -/
theorem full_source_unread_pipe :
    (70000 : Int) ≤ (exStreamBig.data.length : Int) ∧
    exPipeUnread.accepts (70000 : Int).toNat = true ∧
    exPipeUnread.CloseErr = none ∧
    Completion.run exPipeUnread .await
      (toReadableFile exPipeUnread (.stream exStreamBig) 70000 Runtime.start).2 = none ∧
    (runPending exPipeUnread
      (toReadableFile exPipeUnread (.stream exStreamBig) 70000 Runtime.start).2).pipe.length
        = 65536 := by
  have hstall : copyStalls exPipeUnread exStreamBig 70000 = true := by
    rw [copyStalls, exStreamBig_length]; decide
  obtain ⟨hrun, hpipe⟩ := stalled_pipe exPipeUnread exStreamBig 70000 Runtime.start 0
    rfl hstall rfl
  refine ⟨by rw [exStreamBig_length]; decide, by decide, rfl, hrun, ?_⟩
  rw [hpipe, List.length_take, exStreamBig_length]
  decide


/-! ## `toReadableFile`: a source that is a file -/

/-- C10: for a reader that is a `*os.File`, `toReadableFile` returns that handle, no
error and the completion function that returns `nil`; the runtime is unchanged, so
no pipe is made and no background task started; and the completion function
returns `nil` in every state, changing nothing, so on every call and at once. -/
theorem toReadableFile_file (env : PipeEnv) (fd : Nat) (n : Int) (rt : Runtime) :
    (toReadableFile env (.file fd) n rt).1 =
      { f := some (.handle fd), done := some .ok, err := none } ∧
    (toReadableFile env (.file fd) n rt).2 = rt ∧
    (toReadableFile env (.file fd) n rt).2.pipes = rt.pipes ∧
    (toReadableFile env (.file fd) n rt).2.goroutines = rt.goroutines ∧
    (toReadableFile env (.file fd) n rt).2.pending = rt.pending ∧
    (∀ st : Runtime, Completion.call .ok st = some (none, st)) ∧
    (∀ st : Runtime, Completion.run env .ok st = some (none, st)) := by
  refine ⟨rfl, rfl, rfl, rfl, rfl, fun _ => rfl, fun _ => rfl⟩

end Sectorbuilder
